import Mathlib

/-!
Verification of the diff/patch synthesis component of the rishi-cursor backend.

The backend (src/backend/src/controller.ts) validates a request, obtains a
revised code string from an external model call, and then computes
  - an annotated diff: `diffLines(code, revised).map(c => marker + c.value).join()` with empty separator
  - a positional patch: `makePatch(changes)`.

We embed the pieces shallowly:
  - `splitNl` embeds JavaScript `value.split('\n')`;
  - `tokenize`/`diff`/`collapse` model the external `diffLines` of the jsdiff
    library (not under src/), following the spec: a minimal line-level
    LCS edit script over line tokens that keep their trailing newline,
    with maximal same-kind runs merged into `Change` records;
  - `renderDiff`, `makePatch`, `safeParse` and `generateCode` are translated
    directly from src/backend/src/controller.ts.
-/

namespace RishiCursor

/-- Embedding of JavaScript `String.prototype.split('\n')` on the character
list: splits at every newline, keeping empty segments, and yields one
segment even for the empty string. -/
def splitNlChars : List Char → List (List Char)
  | [] => [[]]
  | c :: cs =>
    if c = '\n' then [] :: splitNlChars cs
    else
      match splitNlChars cs with
      | [] => [[c]]
      | h :: t => (c :: h) :: t

/-- Embedding of JavaScript `value.split('\n')` as used by `makePatch`. -/
def splitNl (s : String) : List String :=
  (splitNlChars s.data).map (fun cs => ⟨cs⟩)

/-- Number of newline characters in a string. -/
def nlCount (s : String) : Nat := s.data.countP (· = '\n')

/-- Logical line count of a text: the number of segments of `split('\n')`
(a text ending in a newline has a trailing empty segment, per spec section 3). -/
def lineCount (s : String) : Nat := (splitNl s).length

/-- Modelled from the spec: the line tokenizer used by `diffLines` of the
external jsdiff library (the library is not under src/). Each token is a line
together with its trailing newline; the final token of a text not ending in
a newline has none; a text ending in a newline produces no extra empty
token; the empty text has no tokens. -/
def tokenizeChars : List Char → List (List Char)
  | [] => []
  | c :: cs =>
    if c = '\n' then [c] :: tokenizeChars cs
    else
      match tokenizeChars cs with
      | [] => [[c]]
      | h :: t => (c :: h) :: t

/-- Modelled from the spec: string-level jsdiff line tokenization. -/
def tokenize (s : String) : List String :=
  (tokenizeChars s.data).map (fun cs => ⟨cs⟩)

/-- A single line-level edit operation (spec section 3, `Operation`). -/
inductive Op where
  | retain (line : String)
  | insert (line : String)
  | delete (line : String)
deriving DecidableEq

/-- Whether an operation is a `retain`. -/
def Op.isRetain : Op → Bool
  | .retain _ => true
  | _ => false

/-- The line carried by an operation. -/
def Op.line : Op → String
  | .retain l => l
  | .insert l => l
  | .delete l => l

/-- Cost of an edit script: the number of non-Retain operations. -/
def cost (ops : List Op) : Nat := ops.countP (fun o => ! o.isRetain)

/-- The original-side lines of an operation sequence: retained and deleted
lines, in order. -/
def origOf (ops : List Op) : List String :=
  ops.filterMap (fun o =>
    match o with
    | .retain l => some l
    | .delete l => some l
    | .insert _ => none)

/-- The revised-side lines of an operation sequence: retained and inserted
lines, in order. -/
def revOf (ops : List Op) : List String :=
  ops.filterMap (fun o =>
    match o with
    | .retain l => some l
    | .insert l => some l
    | .delete _ => none)

/-- Modelled from the spec: the edit-script computation of the external
jsdiff `diffLines` (not under src/), as specified in section 4.1: a minimal
(LCS-based) line edit script under exact line equality, retaining a common
head eagerly, and emitting the Delete run before the Insert run on a
replacement. `fuel` bounds the recursion and is always called with
`xs.length + ys.length`, which suffices. -/
def diffF : Nat → List String → List String → List Op
  | _, [], ys => ys.map Op.insert
  | _, xs, [] => xs.map Op.delete
  | 0, x :: xs, y :: ys => (x :: xs).map Op.delete ++ (y :: ys).map Op.insert
  | fuel + 1, x :: xs, y :: ys =>
    if x = y then Op.retain x :: diffF fuel xs ys
    else if cost (Op.delete x :: diffF fuel xs (y :: ys)) ≤
            cost (Op.insert y :: diffF fuel (x :: xs) ys) then
      Op.delete x :: diffF fuel xs (y :: ys)
    else
      Op.insert y :: diffF fuel (x :: xs) ys

/-- Modelled from the spec: minimal line diff between two token lists. -/
def diff (xs ys : List String) : List Op := diffF (xs.length + ys.length) xs ys

/-- The jsdiff `Change` record consumed by the controller: a maximal run of
same-kind operations, its `value` the concatenation of the tokens of the run,
`count` the number of tokens, `added`/`removed` the kind flags. -/
structure Change where
  value : String
  added : Bool
  removed : Bool
  count : Nat
deriving DecidableEq

/-- A single-operation `Change` run. -/
def mkChange : Op → Change
  | .retain l => ⟨l, false, false, 1⟩
  | .insert l => ⟨l, true, false, 1⟩
  | .delete l => ⟨l, false, true, 1⟩

/-- Whether an operation belongs to a run of the given kind. -/
def sameKind : Op → Change → Bool
  | .retain _, c => !c.added && !c.removed
  | .insert _, c => c.added
  | .delete _, c => c.removed

/-- Modelled from the spec: jsdiff merges consecutive same-kind operations
into one `Change` run. -/
def collapse : List Op → List Change
  | [] => []
  | o :: rest =>
    match collapse rest with
    | [] => [mkChange o]
    | c :: cs =>
      if sameKind o c then
        { c with value := o.line ++ c.value, count := c.count + 1 } :: cs
      else
        mkChange o :: c :: cs

/-- Modelled from the spec: the external `diffLines(code, revisedCode)`
call at controller.ts line 157, as a whole. -/
def diffLines (a b : String) : List Change := collapse (diff (tokenize a) (tokenize b))

/-- Embedding of controller.ts lines 158-160: each `Change` run is mapped to
its marker followed by its raw multi-line `value`, and the pieces are joined. -/
def renderDiff (changes : List Change) : String :=
  String.join (changes.map (fun c =>
    (if c.added then "+ " else if c.removed then "- " else "  ") ++ c.value))

/-- Embedding of the `lines.forEach(l => { if (l) patch += mark + l + '\n' })`
loops of `makePatch`: appends a marked line for every nonempty segment,
skipping empty ones (JavaScript truthiness of the string `l`). -/
def emitLines (mark : String) (lines : List String) (patch : String) : String :=
  lines.foldl (fun acc l => if l ≠ "" then acc ++ (mark ++ l ++ "\n") else acc) patch

/-- Embedding of the body of the `changes.forEach` loop of `makePatch`
(controller.ts lines 80-96), acting on the state (patch, oldLine, newLine). -/
def makePatchStep (st : String × Nat × Nat) (part : Change) : String × Nat × Nat :=
  let lines := splitNl part.value
  let count := lines.length - 1
  if part.added then
    (emitLines "+ " lines
      (st.1 ++ ("@@ +" ++ toString st.2.2 ++ "," ++ toString count ++ " @@\n")),
     st.2.1, st.2.2 + count)
  else if part.removed then
    (emitLines "- " lines
      (st.1 ++ ("@@ -" ++ toString st.2.1 ++ "," ++ toString count ++ " @@\n")),
     st.2.1 + count, st.2.2)
  else
    (st.1, st.2.1 + count, st.2.2 + count)

/-- Embedding of `makePatch` (controller.ts lines 75-99) together with its
final counter state: starting from the empty patch, `oldLine = 1`, `newLine = 1`,
process every `Change`. -/
def makePatchAux (changes : List Change) : String × Nat × Nat :=
  changes.foldl makePatchStep ("", 1, 1)

/-- Embedding of `makePatch`: the accumulated patch string. -/
def makePatch (changes : List Change) : String := (makePatchAux changes).1

/-- Length of a longest common subsequence of two token lists, with the same
fuel discipline as `diffF`. -/
def lcsLenF : Nat → List String → List String → Nat
  | _, [], _ => 0
  | _, _ :: _, [] => 0
  | 0, _ :: _, _ :: _ => 0
  | fuel + 1, x :: xs, y :: ys =>
    if x = y then 1 + lcsLenF fuel xs ys
    else max (lcsLenF fuel xs (y :: ys)) (lcsLenF fuel (x :: xs) ys)

/-- Length of a longest common subsequence of two token lists. -/
def lcsLen (xs ys : List String) : Nat := lcsLenF (xs.length + ys.length) xs ys

/-- The inbound request body seen by the controller: each schema field is
present (`some`) or absent (`none`). -/
structure ReqBody where
  code : Option String
  instruction : Option String
  language : Option String
  model : Option String
deriving DecidableEq

/-- The parsed input produced by a successful validation. -/
structure GenerateCodeInput where
  code : String
  instruction : String
  language : String
  model : String
deriving DecidableEq

/-- Embedding of `GenerateCodeSchema.safeParse` (controller.ts lines 19-24):
`code` and `instruction` are required nonempty strings; `language` defaults
to JavaScript when absent and must be nonempty when present; `model`
defaults to gpt-4o-mini and is unconstrained when present. -/
def safeParse (body : ReqBody) : Option GenerateCodeInput :=
  match body.code, body.instruction with
  | some c, some i =>
    if c = "" ∨ i = "" then none
    else
      match body.language with
      | some l =>
        if l = "" then none
        else some ⟨c, i, l, body.model.getD "gpt-4o-mini"⟩
      | none => some ⟨c, i, "JavaScript", body.model.getD "gpt-4o-mini"⟩
  | _, _ => none

/-- The response shape of the controller (controller.ts lines 28-33). -/
structure GenerateCodeResponse where
  revisedCode : String
  explanation : List String
  diff : String
  patch : String
deriving DecidableEq

/-- The three ways the handler responds: `res.status(400).json(...)`,
`res.status(500).json(...)`, or `res.json(response)`. -/
inductive HandlerResult where
  | badRequest (error : String)
  | serverError (error : String)
  | ok (response : GenerateCodeResponse)
deriving DecidableEq

/-- Embedding of the `generateCode` controller (controller.ts lines 119-175).
The external OpenAI call and its JSON parsing are abstracted as `ai`: either
a failure message (surfaced as a 500) or the parsed
`(revisedCode, explanation)` pair. -/
def generateCode (body : ReqBody) (ai : Except String (String × List String)) :
    HandlerResult :=
  match safeParse body with
  | none => .badRequest "Invalid input"
  | some input =>
    match ai with
    | .error msg => .serverError msg
    | .ok (revisedCode, explanation) =>
      let changes := diffLines input.code revisedCode
      .ok { revisedCode := revisedCode, explanation := explanation,
            diff := renderDiff changes, patch := makePatch changes }

/-- The retained lines of an operation sequence, in order. -/
def retainsOf (ops : List Op) : List String :=
  ops.filterMap (fun o =>
    match o with
    | .retain l => some l
    | _ => none)

/-- Advance of the `oldLine` counter caused by one `Change`: the full newline
count of the value unless the run is added, regardless of how many content
lines are emitted. -/
def oldAdvance (c : Change) : Nat := if c.added then 0 else nlCount c.value

/-- Advance of the `newLine` counter caused by one `Change`. -/
def newAdvance (c : Change) : Nat :=
  if c.added then nlCount c.value else if c.removed then 0 else nlCount c.value

/-- Total `oldLine` advance over a change list. -/
def oldAdv (changes : List Change) : Nat := (changes.map oldAdvance).sum

/-- Total `newLine` advance over a change list. -/
def newAdv (changes : List Change) : Nat := (changes.map newAdvance).sum

example : tokenize "line1\nline2\nline3" = ["line1\n", "line2\n", "line3"] := by decide

example :
    diff (tokenize "line1\nline2\nline3") (tokenize "line1\nlineTWO\nline3") =
      [Op.retain "line1\n", Op.delete "line2\n", Op.insert "lineTWO\n",
       Op.retain "line3"] := by decide

example :
    diffLines "line1\nline2\nline3" "line1\nlineTWO\nline3" =
      [⟨"line1\n", false, false, 1⟩, ⟨"line2\n", false, true, 1⟩,
       ⟨"lineTWO\n", true, false, 1⟩, ⟨"line3", false, false, 1⟩] := by decide

example :
    renderDiff (diffLines "line1\nline2\nline3" "line1\nlineTWO\nline3") =
      "  line1\n- line2\n+ lineTWO\n  line3" := by decide

example :
    makePatch (diffLines "line1\nline2\nline3" "line1\nlineTWO\nline3") =
      "@@ -2,1 @@\n- line2\n@@ +2,1 @@\n+ lineTWO\n" := by decide

example : makePatchAux (diffLines "line1\nline2\nline3" "line1\nline2\nline3") =
    ("", 3, 3) := by decide

theorem splitNlChars_length (l : List Char) :
    (splitNlChars l).length = l.countP (· = '\n') + 1 := by
  induction l with
  | nil => rfl
  | cons c cs ih =>
    by_cases h : c = '\n'
    · simp [splitNlChars, h, List.countP_cons, ih]
    · rcases hc : splitNlChars cs with _ | ⟨a, t⟩
      · rw [hc] at ih; simp at ih
      · rw [hc] at ih
        simp only [splitNlChars, if_neg h, hc, List.length_cons] at ih ⊢
        simp [List.countP_cons, h]
        omega

theorem splitNl_length (s : String) : (splitNl s).length = nlCount s + 1 := by
  simp [splitNl, nlCount, splitNlChars_length]

theorem tokenizeChars_flatten (l : List Char) : (tokenizeChars l).flatten = l := by
  induction l with
  | nil => rfl
  | cons c cs ih =>
    by_cases h : c = '\n'
    · simp [tokenizeChars, h, ih]
    · rcases hc : tokenizeChars cs with _ | ⟨a, t⟩
      · rw [hc] at ih; simp at ih
        simp [tokenizeChars, if_neg h, hc, ← ih]
      · rw [hc] at ih
        simp only [tokenizeChars, if_neg h, hc, List.flatten_cons] at ih ⊢
        rw [List.cons_append, ih]

@[simp] theorem join_nil : String.join [] = "" := rfl

theorem join_cons (s : String) (l : List String) :
    String.join (s :: l) = s ++ String.join l := by
  have shift : ∀ (t : List String) (a : String),
      t.foldl (fun r u => r ++ u) a = a ++ t.foldl (fun r u => r ++ u) "" := by
    intro t
    induction t with
    | nil => intro a; simp [String.append_empty]
    | cons u t ih =>
      intro a
      simp only [List.foldl_cons]
      rw [ih (a ++ u), ih ("" ++ u), String.empty_append, String.append_assoc]
  simp only [String.join, List.foldl_cons]
  rw [shift l ("" ++ s), String.empty_append]

theorem join_map_mk (ll : List (List Char)) :
    String.join (ll.map (fun cs => (⟨cs⟩ : String))) = ⟨ll.flatten⟩ := by
  induction ll with
  | nil => rfl
  | cons a t ih =>
    rw [List.map_cons, join_cons, ih, List.flatten_cons]
    rfl

theorem join_tokenize (s : String) : String.join (tokenize s) = s := by
  rw [tokenize, join_map_mk, tokenizeChars_flatten]

theorem nlCount_append (a b : String) : nlCount (a ++ b) = nlCount a + nlCount b := by
  simp [nlCount, String.data_append, List.countP_append]

theorem sum_nlCount_tokenize (s : String) :
    ((tokenize s).map nlCount).sum = nlCount s := by
  simp only [tokenize, List.map_map]
  rw [show (nlCount ∘ fun cs => (⟨cs⟩ : String)) = List.countP (· = '\n') from rfl]
  rw [← List.countP_flatten, tokenizeChars_flatten]
  rfl

@[simp] theorem origOf_nil : origOf [] = [] := rfl

@[simp] theorem origOf_retain (l : String) (t : List Op) :
    origOf (Op.retain l :: t) = l :: origOf t := rfl

@[simp] theorem origOf_delete (l : String) (t : List Op) :
    origOf (Op.delete l :: t) = l :: origOf t := rfl

@[simp] theorem origOf_insert (l : String) (t : List Op) :
    origOf (Op.insert l :: t) = origOf t := rfl

@[simp] theorem revOf_nil : revOf [] = [] := rfl

@[simp] theorem revOf_retain (l : String) (t : List Op) :
    revOf (Op.retain l :: t) = l :: revOf t := rfl

@[simp] theorem revOf_insert (l : String) (t : List Op) :
    revOf (Op.insert l :: t) = l :: revOf t := rfl

@[simp] theorem revOf_delete (l : String) (t : List Op) :
    revOf (Op.delete l :: t) = revOf t := rfl

@[simp] theorem cost_nil : cost [] = 0 := rfl

@[simp] theorem cost_retain (l : String) (t : List Op) :
    cost (Op.retain l :: t) = cost t := by
  simp [cost, List.countP_cons, Op.isRetain]

@[simp] theorem cost_insert (l : String) (t : List Op) :
    cost (Op.insert l :: t) = cost t + 1 := by
  simp [cost, List.countP_cons, Op.isRetain]

@[simp] theorem cost_delete (l : String) (t : List Op) :
    cost (Op.delete l :: t) = cost t + 1 := by
  simp [cost, List.countP_cons, Op.isRetain]

theorem origOf_map_insert (ys : List String) : origOf (ys.map Op.insert) = [] := by
  induction ys with
  | nil => rfl
  | cons y t ih => simp [ih]

theorem origOf_map_delete (xs : List String) : origOf (xs.map Op.delete) = xs := by
  induction xs with
  | nil => rfl
  | cons x t ih => simp [ih]

theorem revOf_map_insert (ys : List String) : revOf (ys.map Op.insert) = ys := by
  induction ys with
  | nil => rfl
  | cons y t ih => simp [ih]

theorem revOf_map_delete (xs : List String) : revOf (xs.map Op.delete) = [] := by
  induction xs with
  | nil => rfl
  | cons x t ih => simp [ih]

theorem origOf_diffF : ∀ (fuel : Nat) (xs ys : List String),
    xs.length + ys.length ≤ fuel → origOf (diffF fuel xs ys) = xs := by
  intro fuel
  induction fuel with
  | zero =>
    intro xs ys h
    cases xs with
    | nil => simp [diffF, origOf_map_insert]
    | cons x xs =>
      cases ys with
      | nil => simp [diffF, origOf_map_delete]
      | cons y ys => simp at h
  | succ f ih =>
    intro xs ys h
    cases xs with
    | nil => simp [diffF, origOf_map_insert]
    | cons x xs =>
      cases ys with
      | nil => simp [diffF, origOf_map_delete]
      | cons y ys =>
        simp only [diffF]
        by_cases hxy : x = y
        · rw [if_pos hxy]
          simp only [List.length_cons] at h
          simp [ih xs ys (by omega)]
        · rw [if_neg hxy]
          simp only [List.length_cons] at h
          split
          · simp [ih xs (y :: ys) (by simp; omega)]
          · simp [ih (x :: xs) ys (by simp; omega)]

theorem revOf_diffF : ∀ (fuel : Nat) (xs ys : List String),
    xs.length + ys.length ≤ fuel → revOf (diffF fuel xs ys) = ys := by
  intro fuel
  induction fuel with
  | zero =>
    intro xs ys h
    cases xs with
    | nil => simp [diffF, revOf_map_insert]
    | cons x xs =>
      cases ys with
      | nil => simp [diffF, revOf_map_delete]
      | cons y ys => simp at h
  | succ f ih =>
    intro xs ys h
    cases xs with
    | nil => simp [diffF, revOf_map_insert]
    | cons x xs =>
      cases ys with
      | nil => simp [diffF, revOf_map_delete]
      | cons y ys =>
        simp only [diffF]
        by_cases hxy : x = y
        · rw [if_pos hxy]
          simp only [List.length_cons] at h
          simp [hxy, ih xs ys (by omega)]
        · rw [if_neg hxy]
          simp only [List.length_cons] at h
          split
          · simp [ih xs (y :: ys) (by simp; omega)]
          · simp [ih (x :: xs) ys (by simp; omega)]

theorem diff_origOf (xs ys : List String) : origOf (diff xs ys) = xs :=
  origOf_diffF (xs.length + ys.length) xs ys (Nat.le_refl _)

theorem diff_revOf (xs ys : List String) : revOf (diff xs ys) = ys :=
  revOf_diffF (xs.length + ys.length) xs ys (Nat.le_refl _)

theorem cost_map_insert (ys : List String) : cost (ys.map Op.insert) = ys.length := by
  induction ys with
  | nil => rfl
  | cons y t ih => simp [ih]

theorem cost_map_delete (xs : List String) : cost (xs.map Op.delete) = xs.length := by
  induction xs with
  | nil => rfl
  | cons x t ih => simp [ih]

theorem cost_diffF_lcs : ∀ (fuel : Nat) (xs ys : List String),
    xs.length + ys.length ≤ fuel →
    cost (diffF fuel xs ys) + 2 * lcsLenF fuel xs ys = xs.length + ys.length := by
  intro fuel
  induction fuel with
  | zero =>
    intro xs ys h
    cases xs with
    | nil => simp [diffF, lcsLenF, cost_map_insert]
    | cons x xs =>
      cases ys with
      | nil => simp [diffF, lcsLenF, cost_map_delete]
      | cons y ys => simp at h
  | succ f ih =>
    intro xs ys h
    cases xs with
    | nil => simp [diffF, lcsLenF, cost_map_insert]
    | cons x xs =>
      cases ys with
      | nil => simp [diffF, lcsLenF, cost_map_delete]
      | cons y ys =>
        simp only [List.length_cons] at h
        have h1 := ih xs (y :: ys) (by simp; omega)
        have h2 := ih (x :: xs) ys (by simp; omega)
        simp only [List.length_cons] at h1 h2
        simp only [diffF, lcsLenF]
        by_cases hxy : x = y
        · rw [if_pos hxy, if_pos hxy]
          have h0 := ih xs ys (by omega)
          simp only [cost_retain, List.length_cons]
          omega
        · rw [if_neg hxy, if_neg hxy]
          split
          · rename_i hc
            simp only [cost_delete, cost_insert] at hc ⊢
            have hmax : max (lcsLenF f xs (y :: ys)) (lcsLenF f (x :: xs) ys) =
                lcsLenF f xs (y :: ys) := Nat.max_eq_left (by omega)
            rw [hmax]
            simp only [List.length_cons]
            omega
          · rename_i hc
            simp only [cost_delete, cost_insert] at hc ⊢
            have hmax : max (lcsLenF f xs (y :: ys)) (lcsLenF f (x :: xs) ys) =
                lcsLenF f (x :: xs) ys := Nat.max_eq_right (by omega)
            rw [hmax]
            simp only [List.length_cons]
            omega

theorem length_le_lcsLenF : ∀ (fuel : Nat) (xs ys c : List String),
    xs.length + ys.length ≤ fuel → c.Sublist xs → c.Sublist ys →
    c.length ≤ lcsLenF fuel xs ys := by
  intro fuel
  induction fuel with
  | zero =>
    intro xs ys c h hc1 hc2
    cases xs with
    | nil =>
      rw [List.sublist_nil.mp hc1]
      simp [lcsLenF]
    | cons x xs =>
      cases ys with
      | nil =>
        rw [List.sublist_nil.mp hc2]
        simp [lcsLenF]
      | cons y ys => simp at h
  | succ f ih =>
    intro xs ys c h hc1 hc2
    cases xs with
    | nil =>
      rw [List.sublist_nil.mp hc1]
      simp [lcsLenF]
    | cons x xs =>
      cases ys with
      | nil =>
        rw [List.sublist_nil.mp hc2]
        simp [lcsLenF]
      | cons y ys =>
        simp only [List.length_cons] at h
        simp only [lcsLenF]
        by_cases hxy : x = y
        · rw [if_pos hxy]
          subst hxy
          rcases List.sublist_cons_iff.mp hc1 with htail | ⟨r, rfl, hr⟩
          · rcases List.sublist_cons_iff.mp hc2 with htail2 | ⟨r, rfl, hr2⟩
            · have := ih xs ys c (by omega) htail htail2
              omega
            · have hrx : r.Sublist xs := (List.Sublist.cons x (List.Sublist.refl r)).trans htail
              have := ih xs ys r (by omega) hrx hr2
              simp only [List.length_cons]
              omega
          · rcases List.sublist_cons_iff.mp hc2 with htail2 | ⟨r2, he, hr2⟩
            · have hry : r.Sublist ys := (List.Sublist.cons x (List.Sublist.refl r)).trans htail2
              have := ih xs ys r (by omega) hr hry
              simp only [List.length_cons]
              omega
            · have hrr : r = r2 := (List.cons.injEq _ _ _ _).mp he |>.2
              subst hrr
              have := ih xs ys r (by omega) hr hr2
              simp only [List.length_cons]
              omega
        · rw [if_neg hxy]
          rcases List.sublist_cons_iff.mp hc1 with htail | ⟨r, rfl, hr⟩
          · have := ih xs (y :: ys) c (by simp; omega) htail hc2
            exact this.trans (Nat.le_max_left _ _)
          · rcases List.sublist_cons_iff.mp hc2 with htail2 | ⟨r2, he, hr2⟩
            · have := ih (x :: xs) ys (x :: r) (by simp; omega) hc1 htail2
              exact this.trans (Nat.le_max_right _ _)
            · exact absurd ((List.cons.injEq _ _ _ _).mp he).1 hxy

@[simp] theorem retainsOf_nil : retainsOf [] = [] := rfl

@[simp] theorem retainsOf_retain (l : String) (t : List Op) :
    retainsOf (Op.retain l :: t) = l :: retainsOf t := rfl

@[simp] theorem retainsOf_insert (l : String) (t : List Op) :
    retainsOf (Op.insert l :: t) = retainsOf t := rfl

@[simp] theorem retainsOf_delete (l : String) (t : List Op) :
    retainsOf (Op.delete l :: t) = retainsOf t := rfl

theorem retainsOf_sublist_origOf (ops : List Op) :
    (retainsOf ops).Sublist (origOf ops) := by
  induction ops with
  | nil => simp
  | cons o t ih =>
    cases o with
    | retain l => simpa using List.Sublist.cons₂ l ih
    | insert l => simpa using ih
    | delete l => simpa using List.Sublist.cons l ih

theorem retainsOf_sublist_revOf (ops : List Op) :
    (retainsOf ops).Sublist (revOf ops) := by
  induction ops with
  | nil => simp
  | cons o t ih =>
    cases o with
    | retain l => simpa using List.Sublist.cons₂ l ih
    | insert l => simpa using List.Sublist.cons l ih
    | delete l => simpa using ih

theorem cost_plus_retains (ops : List Op) :
    cost ops + 2 * (retainsOf ops).length = (origOf ops).length + (revOf ops).length := by
  induction ops with
  | nil => simp
  | cons o t ih =>
    cases o <;> simp <;> omega

theorem diff_cost_lcs (xs ys : List String) :
    cost (diff xs ys) + 2 * lcsLen xs ys = xs.length + ys.length :=
  cost_diffF_lcs (xs.length + ys.length) xs ys (Nat.le_refl _)

theorem diff_min (xs ys : List String) (s : List Op)
    (h1 : origOf s = xs) (h2 : revOf s = ys) : cost (diff xs ys) ≤ cost s := by
  have hsub1 : (retainsOf s).Sublist xs := h1 ▸ retainsOf_sublist_origOf s
  have hsub2 : (retainsOf s).Sublist ys := h2 ▸ retainsOf_sublist_revOf s
  have hlcs : (retainsOf s).length ≤ lcsLen xs ys :=
    length_le_lcsLenF (xs.length + ys.length) xs ys (retainsOf s)
      (Nat.le_refl _) hsub1 hsub2
  have hc := cost_plus_retains s
  rw [h1, h2] at hc
  have hd := diff_cost_lcs xs ys
  omega

theorem diffF_self : ∀ (fuel : Nat) (xs : List String),
    xs.length ≤ fuel → diffF fuel xs xs = xs.map Op.retain := by
  intro fuel
  induction fuel with
  | zero =>
    intro xs h
    cases xs with
    | nil => rfl
    | cons x t => simp at h
  | succ f ih =>
    intro xs h
    cases xs with
    | nil => rfl
    | cons x t =>
      simp only [List.length_cons] at h
      simp [diffF, ih t (by omega)]

theorem diff_self (xs : List String) : diff xs xs = xs.map Op.retain :=
  diffF_self (xs.length + xs.length) xs (by omega)

theorem makePatchStep_counters (st : String × Nat × Nat) (c : Change) :
    (makePatchStep st c).2.1 = st.2.1 + oldAdvance c ∧
    (makePatchStep st c).2.2 = st.2.2 + newAdvance c := by
  have hcount : (splitNl c.value).length - 1 = nlCount c.value := by
    rw [splitNl_length]
    omega
  simp only [makePatchStep, oldAdvance, newAdvance]
  split_ifs with h1 h2 <;> simp [hcount]

theorem makePatchFold_counters : ∀ (changes : List Change) (st : String × Nat × Nat),
    (changes.foldl makePatchStep st).2.1 = st.2.1 + oldAdv changes ∧
    (changes.foldl makePatchStep st).2.2 = st.2.2 + newAdv changes := by
  intro changes
  induction changes with
  | nil => intro st; simp [oldAdv, newAdv]
  | cons c t ih =>
    intro st
    simp only [List.foldl_cons, oldAdv, newAdv, List.map_cons, List.sum_cons]
    have hs := makePatchStep_counters st c
    have ht := ih (makePatchStep st c)
    constructor
    · rw [ht.1, hs.1, oldAdv]; omega
    · rw [ht.2, hs.2, newAdv]; omega

theorem makePatchAux_counters (changes : List Change) :
    (makePatchAux changes).2.1 = 1 + oldAdv changes ∧
    (makePatchAux changes).2.2 = 1 + newAdv changes := by
  have h := makePatchFold_counters changes ("", 1, 1)
  constructor
  · rw [makePatchAux, h.1]
  · rw [makePatchAux, h.2]

theorem mkChange_not_both (o : Op) :
    ¬((mkChange o).added = true ∧ (mkChange o).removed = true) := by
  cases o <;> simp [mkChange]

theorem collapse_not_both : ∀ (ops : List Op), ∀ c ∈ collapse ops,
    ¬(c.added = true ∧ c.removed = true) := by
  intro ops
  induction ops with
  | nil => simp [collapse]
  | cons o rest ih =>
    intro c hc
    rcases hr : collapse rest with _ | ⟨c0, cs⟩
    · simp only [collapse, hr, List.mem_singleton] at hc
      subst hc
      exact mkChange_not_both o
    · simp only [collapse, hr] at hc
      by_cases hk : sameKind o c0
      · rw [if_pos hk] at hc
        rcases List.mem_cons.mp hc with rfl | hmem
        · have := ih c0 (hr ▸ List.mem_cons_self c0 cs)
          simpa using this
        · exact ih c (hr ▸ List.mem_cons_of_mem c0 hmem)
      · rw [if_neg hk] at hc
        rcases List.mem_cons.mp hc with rfl | hmem
        · exact mkChange_not_both o
        · exact ih c (hr ▸ hmem)

theorem oldAdv_collapse : ∀ (ops : List Op),
    oldAdv (collapse ops) = ((origOf ops).map nlCount).sum := by
  intro ops
  induction ops with
  | nil => simp [collapse, oldAdv]
  | cons o rest ih =>
    rcases hr : collapse rest with _ | ⟨c0, cs⟩
    · rw [hr] at ih
      simp only [oldAdv, List.map_nil, List.sum_nil] at ih
      cases o <;>
        simp [collapse, hr, oldAdv, oldAdvance, mkChange, ← ih]
    · rw [hr] at ih
      have hflags := collapse_not_both rest c0 (hr ▸ List.mem_cons_self c0 cs)
      by_cases hk : sameKind o c0
      · cases o with
        | retain l =>
          have hc0 : c0.added = false ∧ c0.removed = false := by
            simp [sameKind] at hk
            exact ⟨hk.1, hk.2⟩
          simp only [collapse, hr, if_pos hk, origOf_retain, List.map_cons,
            List.sum_cons, oldAdv, oldAdvance, hc0.1, Op.line] at ih ⊢
          simp only [Bool.false_eq_true, if_false, nlCount_append] at ih ⊢
          omega
        | insert l =>
          have hc0 : c0.added = true := by simpa [sameKind] using hk
          simp only [collapse, hr, if_pos hk, origOf_insert, List.map_cons,
            List.sum_cons, oldAdv, oldAdvance, hc0, Op.line] at ih ⊢
          simpa using ih
        | delete l =>
          have hc0r : c0.removed = true := by simpa [sameKind] using hk
          have hc0a : c0.added = false := by
            cases ha : c0.added
            · rfl
            · exact absurd ⟨ha, hc0r⟩ hflags
          simp only [collapse, hr, if_pos hk, origOf_delete, List.map_cons,
            List.sum_cons, oldAdv, oldAdvance, hc0a, Op.line] at ih ⊢
          simp only [Bool.false_eq_true, if_false, nlCount_append] at ih ⊢
          omega
      · cases o <;>
          simp only [collapse, hr, if_neg hk, origOf_retain, origOf_insert,
            origOf_delete, List.map_cons, List.sum_cons, oldAdv, oldAdvance,
            mkChange] at ih ⊢ <;>
          simp [← ih]

theorem newAdv_collapse : ∀ (ops : List Op),
    newAdv (collapse ops) = ((revOf ops).map nlCount).sum := by
  intro ops
  induction ops with
  | nil => simp [collapse, newAdv]
  | cons o rest ih =>
    rcases hr : collapse rest with _ | ⟨c0, cs⟩
    · rw [hr] at ih
      simp only [newAdv, List.map_nil, List.sum_nil] at ih
      cases o <;>
        simp [collapse, hr, newAdv, newAdvance, mkChange, ← ih]
    · rw [hr] at ih
      have hflags := collapse_not_both rest c0 (hr ▸ List.mem_cons_self c0 cs)
      by_cases hk : sameKind o c0
      · cases o with
        | retain l =>
          have hc0 : c0.added = false ∧ c0.removed = false := by
            simp [sameKind] at hk
            exact ⟨hk.1, hk.2⟩
          simp only [collapse, hr, if_pos hk, revOf_retain, List.map_cons,
            List.sum_cons, newAdv, newAdvance, hc0.1, hc0.2, Op.line] at ih ⊢
          simp only [Bool.false_eq_true, if_false, nlCount_append] at ih ⊢
          omega
        | insert l =>
          have hc0 : c0.added = true := by simpa [sameKind] using hk
          simp only [collapse, hr, if_pos hk, revOf_insert, List.map_cons,
            List.sum_cons, newAdv, newAdvance, hc0, Op.line] at ih ⊢
          simp only [if_true, nlCount_append] at ih ⊢
          omega
        | delete l =>
          have hc0r : c0.removed = true := by simpa [sameKind] using hk
          have hc0a : c0.added = false := by
            cases ha : c0.added
            · rfl
            · exact absurd ⟨ha, hc0r⟩ hflags
          simp only [collapse, hr, if_pos hk, revOf_delete, List.map_cons,
            List.sum_cons, newAdv, newAdvance, hc0a, hc0r, Op.line] at ih ⊢
          simpa using ih
      · cases o <;>
          simp only [collapse, hr, if_neg hk, revOf_retain, revOf_insert,
            revOf_delete, List.map_cons, List.sum_cons, newAdv, newAdvance,
            mkChange] at ih ⊢ <;>
          simp [← ih]

theorem makePatchAux_final_old (A B : String) :
    (makePatchAux (diffLines A B)).2.1 = lineCount A := by
  rw [(makePatchAux_counters (diffLines A B)).1, diffLines, oldAdv_collapse,
    diff_origOf, sum_nlCount_tokenize]
  rw [lineCount, splitNl_length]
  omega

theorem makePatchAux_final_new (A B : String) :
    (makePatchAux (diffLines A B)).2.2 = lineCount B := by
  rw [(makePatchAux_counters (diffLines A B)).2, diffLines, newAdv_collapse,
    diff_revOf, sum_nlCount_tokenize]
  rw [lineCount, splitNl_length]
  omega

theorem renderDiff_cons (c : Change) (cs : List Change) :
    renderDiff (c :: cs) =
      ((if c.added then "+ " else if c.removed then "- " else "  ") ++ c.value) ++
        renderDiff cs := by
  simp only [renderDiff, List.map_cons]
  exact join_cons _ _

theorem makePatchStep_count_irrel (st : String × Nat × Nat) (c : Change) (n : Nat) :
    makePatchStep st { c with count := n } = makePatchStep st c := rfl

theorem makePatchFold_count_irrel : ∀ (changes : List Change) (f : Change → Nat)
    (st : String × Nat × Nat),
    (changes.map (fun c => { c with count := f c })).foldl makePatchStep st =
      changes.foldl makePatchStep st := by
  intro changes f
  induction changes with
  | nil => intro st; rfl
  | cons c t ih =>
    intro st
    simp only [List.map_cons, List.foldl_cons, makePatchStep_count_irrel]
    exact ih _

theorem collapse_map_retain : ∀ (x : String) (xs : List String),
    collapse ((x :: xs).map Op.retain) =
      [⟨String.join (x :: xs), false, false, xs.length + 1⟩] := by
  intro x xs
  induction xs generalizing x with
  | nil => simp [collapse, mkChange, join_cons, String.append_empty]
  | cons x2 t ih =>
    have hr := ih x2
    simp only [List.map_cons] at hr ⊢
    rw [join_cons]
    show (match collapse (Op.retain x2 :: List.map Op.retain t) with
      | [] => [mkChange (Op.retain x)]
      | c :: cs =>
        if sameKind (Op.retain x) c then
          { c with value := (Op.retain x).line ++ c.value, count := c.count + 1 } :: cs
        else mkChange (Op.retain x) :: c :: cs) =
      [⟨x ++ String.join (x2 :: t), false, false, t.length + 1 + 1⟩]
    rw [hr]
    simp [sameKind, Op.line]

theorem collapse_retains_flags (xs : List String) :
    ∀ c ∈ collapse (xs.map Op.retain), c.added = false ∧ c.removed = false := by
  cases xs with
  | nil => simp [collapse]
  | cons x t =>
    intro c hc
    rw [collapse_map_retain x t] at hc
    rw [List.mem_singleton] at hc
    subst hc
    exact ⟨rfl, rfl⟩

theorem makePatchFold_patch_common : ∀ (changes : List Change) (st : String × Nat × Nat),
    (∀ c ∈ changes, c.added = false ∧ c.removed = false) →
    (changes.foldl makePatchStep st).1 = st.1 := by
  intro changes
  induction changes with
  | nil => intro st _; rfl
  | cons c t ih =>
    intro st h
    have hc := h c (List.mem_cons_self c t)
    have hstep : (makePatchStep st c).1 = st.1 := by
      simp [makePatchStep, hc.1, hc.2]
    rw [List.foldl_cons, ih _ (fun d hd => h d (List.mem_cons_of_mem c hd)), hstep]

theorem makePatch_identity (A : String) : makePatch (diffLines A A) = "" := by
  rw [makePatch, makePatchAux]
  apply makePatchFold_patch_common
  intro c hc
  rw [diffLines, diff_self] at hc
  exact collapse_retains_flags (tokenize A) c hc

theorem renderDiff_identity (A : String) :
    renderDiff (diffLines A A) = if A = "" then "" else "  " ++ A := by
  by_cases hA : A = ""
  · subst hA
    rfl
  · rw [if_neg hA]
    have ht : tokenize A ≠ [] := fun h0 => hA (by rw [← join_tokenize A, h0]; rfl)
    rcases htt : tokenize A with _ | ⟨t0, ts⟩
    · exact absurd htt ht
    · have hj : String.join (t0 :: ts) = A := by rw [← htt, join_tokenize]
      rw [diffLines, diff_self, htt, collapse_map_retain]
      simp [renderDiff, join_cons, String.append_empty, hj]

theorem oldAdv_key (cs : List Change) :
    oldAdv cs = ((cs.map (fun c => (c.added, c.removed, nlCount c.value))).map
      (fun k => if k.1 then 0 else k.2.2)).sum := by
  rw [oldAdv, List.map_map]
  rfl

theorem newAdv_key (cs : List Change) :
    newAdv cs = ((cs.map (fun c => (c.added, c.removed, nlCount c.value))).map
      (fun k => if k.1 then k.2.2 else if k.2.1 then 0 else k.2.2)).sum := by
  rw [newAdv, List.map_map]
  rfl

/-- C1: Round-trip invariant: for every pair of texts (A, B), concatenating the
Retain and Delete lines of diff(A,B) in order reconstructs A exactly, and
concatenating the Retain and Insert lines in order reconstructs B exactly. -/
theorem claim1_roundtrip (A B : String) :
    String.join (origOf (diff (tokenize A) (tokenize B))) = A ∧
    String.join (revOf (diff (tokenize A) (tokenize B))) = B := by
  constructor
  · rw [diff_origOf, join_tokenize]
  · rw [diff_revOf, join_tokenize]

/-- C2 counterexample: for A = B = the three-line text of the worked scenario,
the final originalLine counter after processing diff(A,B) is 3 = lineCount(A),
not lineCount(A) + 1 = 4 as the claim states. -/
theorem claim2_counterexample :
    (makePatchAux (diffLines "line1\nline2\nline3" "line1\nlineTWO\nline3")).2.1 = 3 ∧
    lineCount "line1\nline2\nline3" + 1 = 4 ∧
    (makePatchAux (diffLines "line1\nline2\nline3" "line1\nlineTWO\nline3")).2.1 ≠
      lineCount "line1\nline2\nline3" + 1 := by
  decide

/-- C2 amended: after makePatch has processed the full operation sequence of
diff(A,B), the originalLine counter equals lineCount(A) and the revisedLine
counter equals lineCount(B) (the number of newline-separated segments), one
less than the claimed lineCount + 1, because the code advances each counter by
value.split('\n').length - 1 per run rather than by one per logical line. -/
theorem claim2_amended (A B : String) :
    (makePatchAux (diffLines A B)).2.1 = lineCount A ∧
    (makePatchAux (diffLines A B)).2.2 = lineCount B :=
  ⟨makePatchAux_final_old A B, makePatchAux_final_new A B⟩

/-- C3 counterexample: a Delete run consisting of a single blank line produces
only its hunk header: the blank content line is dropped by the `if (l)`
truthiness test, contrary to the claim that it is still emitted. Moreover the
concrete pair A = "a\n", B = "a" does not diff to Retain("a"), Delete(""):
the line tokens keep their newlines, so "a\n" and "a" are unequal lines and
the code produces a Delete("a\n") run followed by an Insert("a") run. -/
theorem claim3_counterexample :
    makePatch [⟨"\n", false, true, 1⟩] = "@@ -1,1 @@\n" ∧
    makePatch [⟨"\n", false, true, 1⟩] ≠ "@@ -1,1 @@\n- \n" ∧
    diffLines "a\n" "a" = [⟨"a\n", false, true, 1⟩, ⟨"a", true, false, 1⟩] := by
  decide

/-- C3 amended: on a Delete run consisting of a single blank line, makePatch
emits the hunk header (with count 1) and advances the originalLine counter,
but emits no content line: blank lines are dropped from the patch body. -/
theorem claim3_amended (p : String) (o n k : Nat) :
    makePatchStep (p, o, n) ⟨"\n", false, true, k⟩ =
      (p ++ ("@@ -" ++ toString o ++ ",1 @@\n"), o + 1, n) := by
  have h : makePatchStep (p, o, n) ⟨"\n", false, true, k⟩ =
      (p ++ ("@@ -" ++ toString o ++ "," ++ toString (1 : Nat) ++ " @@\n"), o + 1, n) := rfl
  rw [h]
  rw [String.append_assoc ("@@ -" ++ toString o) "," (toString (1 : Nat))]
  rw [String.append_assoc ("@@ -" ++ toString o) ("," ++ toString (1 : Nat)) " @@\n"]
  have h2 : (("," ++ toString (1 : Nat)) ++ " @@\n" : String) = ",1 @@\n" := by decide
  rw [h2]

/-- C4 counterexample: for the worked scenario the rendered diff is
"  line1\n- line2\n+ lineTWO\n  line3" — without the trailing newline claimed
by the spec, because the final retained token "line3" carries no newline and
runs are emitted verbatim. -/
theorem claim4_counterexample :
    renderDiff (diffLines "line1\nline2\nline3" "line1\nlineTWO\nline3") =
      "  line1\n- line2\n+ lineTWO\n  line3" ∧
    renderDiff (diffLines "line1\nline2\nline3" "line1\nlineTWO\nline3") ≠
      "  line1\n- line2\n+ lineTWO\n  line3\n" := by
  decide

/-- C4 amended: for the worked scenario the operation sequence is
Retain(line1), Delete(line2), Insert(lineTWO), Retain(line3), the rendered
patch is exactly as claimed, and the rendered diff is as claimed except that
it does not end in a newline. -/
theorem claim4_amended :
    diff (tokenize "line1\nline2\nline3") (tokenize "line1\nlineTWO\nline3") =
      [Op.retain "line1\n", Op.delete "line2\n", Op.insert "lineTWO\n",
       Op.retain "line3"] ∧
    renderDiff (diffLines "line1\nline2\nline3" "line1\nlineTWO\nline3") =
      "  line1\n- line2\n+ lineTWO\n  line3" ∧
    makePatch (diffLines "line1\nline2\nline3" "line1\nlineTWO\nline3") =
      "@@ -2,1 @@\n- line2\n@@ +2,1 @@\n+ lineTWO\n" := by
  decide

/-- C5 counterexample: for A = "a\nb", renderDiff of diff(A,A) is "  a\nb";
its second line "b" is not prefixed by two spaces, because the single Retain
run is prefixed once as a whole. -/
theorem claim5_counterexample :
    renderDiff (diffLines "a\nb" "a\nb") = "  a\nb" ∧
    splitNl (renderDiff (diffLines "a\nb" "a\nb")) = ["  a", "b"] ∧
    ¬ (splitNl (renderDiff (diffLines "a\nb" "a\nb"))).all
        (fun l => l.data.take 2 = [' ', ' ']) := by
  decide

/-- C5 amended: diff(A, A) is an all-Retain sequence and makePatch of it is
the empty string, as claimed; renderDiff of it prefixes two spaces once to
the whole retained run, so it equals "  " ++ A (only the first line of a
multi-line text is prefixed), not a per-line prefixed rendering. -/
theorem claim5_amended (A : String) :
    diff (tokenize A) (tokenize A) = (tokenize A).map Op.retain ∧
    makePatch (diffLines A A) = "" ∧
    renderDiff (diffLines A A) = if A = "" then "" else "  " ++ A :=
  ⟨diff_self (tokenize A), makePatch_identity A, renderDiff_identity A⟩

/-- C6 counterexample: a two-line Insert run is rendered as "+ x\ny\n": only
the first line of the run receives the "+ " marker, the interior line "y" is not
prefixed, contrary to the claim that every individual line is prefixed. -/
theorem claim6_counterexample :
    renderDiff (diffLines "" "x\ny\n") = "+ x\ny\n" ∧
    renderDiff (diffLines "" "x\ny\n") ≠ "+ x\n+ y\n" := by
  decide

/-- C6 amended: renderDiff renders the sequence linearly in original order,
but applies the "+ "/"- "/two-space marker once per Change run, prepended to
the raw multi-line value of the run; lines inside a multi-line run after the first
carry no marker, as the concrete two-line insert run shows. -/
theorem claim6_amended :
    (∀ (c : Change) (cs : List Change),
      renderDiff (c :: cs) =
        ((if c.added then "+ " else if c.removed then "- " else "  ") ++ c.value) ++
          renderDiff cs) ∧
    renderDiff [⟨"x\ny\n", true, false, 2⟩] = "+ x\ny\n" :=
  ⟨renderDiff_cons, by decide⟩

/-- C7: Minimality: the diff operation sequence minimizes the number of
non-Retain operations among all operation sequences with the same original
and revised line sequences; in particular for A = [x,y,z], B = [x,w,z] the
result is exactly Retain(x), Delete(y), Insert(w), Retain(z). -/
theorem claim7_minimality :
    (∀ (xs ys : List String) (s : List Op), origOf s = xs → revOf s = ys →
      cost (diff xs ys) ≤ cost s) ∧
    diff ["x", "y", "z"] ["x", "w", "z"] =
      [Op.retain "x", Op.delete "y", Op.insert "w", Op.retain "z"] :=
  ⟨fun xs ys s h1 h2 => diff_min xs ys s h1 h2, by decide⟩

/-- C7 witness: the minimality bound instantiated at a concrete script. -/
theorem claim7_minimality_witness :
    cost (diff ["x"] ["y"]) ≤ cost [Op.delete "x", Op.insert "y"] :=
  claim7_minimality.1 ["x"] ["y"] [Op.delete "x", Op.insert "y"] (by decide) (by decide)

/-- C8 counterexample: makePatch never fails: fed a Delete run whose declared
count (5) disagrees with its one-line payload, it returns a normal patch
string — the same one as for the consistent declared count — instead of
failing with an InvalidOperationSequence condition. -/
theorem claim8_counterexample :
    makePatch [⟨"x\n", false, true, 5⟩] = "@@ -1,1 @@\n- x\n" ∧
    makePatch [⟨"x\n", false, true, 5⟩] = makePatch [⟨"x\n", false, true, 1⟩] := by
  decide

/-- C8 amended: makePatch is total and raises no InvalidOperationSequence
condition: it never reads the declared count of a Change, recomputing the run
length from the payload instead, so its output is invariant under arbitrary
changes to the declared counts. -/
theorem claim8_amended (changes : List Change) (f : Change → Nat) :
    makePatch (changes.map (fun c => { c with count := f c })) = makePatch changes := by
  rw [makePatch, makePatch, makePatchAux, makePatchAux, makePatchFold_count_irrel]

/-- C9: Request validation: a body is accepted only with present, nonempty
code and instruction (with defaults applied to missing language and model
fields), and a body that fails validation yields the 400 bad-request response
without any diff or patch being produced. -/
theorem claim9_validation :
    (∀ (body : ReqBody) (input : GenerateCodeInput), safeParse body = some input →
      body.code = some input.code ∧ input.code ≠ "" ∧
      body.instruction = some input.instruction ∧ input.instruction ≠ "" ∧
      (body.language = none → input.language = "JavaScript") ∧
      (body.model = none → input.model = "gpt-4o-mini")) ∧
    (∀ (body : ReqBody) (ai : Except String (String × List String)),
      safeParse body = none →
      generateCode body ai = HandlerResult.badRequest "Invalid input") := by
  constructor
  · intro body input h
    rcases hb : body.code with _ | c
    · rw [safeParse, hb] at h
      simp at h
    rcases hi : body.instruction with _ | i
    · rw [safeParse, hb, hi] at h
      simp at h
    rw [safeParse, hb, hi] at h
    simp only [] at h
    by_cases hci : c = "" ∨ i = ""
    · rw [if_pos hci] at h
      simp at h
    · rw [if_neg hci] at h
      push_neg at hci
      rcases hl : body.language with _ | l
      · rw [hl] at h
        simp only [] at h
        rw [Option.some.injEq] at h
        subst h
        exact ⟨rfl, hci.1, rfl, hci.2, fun _ => rfl, fun hm => by rw [hm]; rfl⟩
      · rw [hl] at h
        simp only [] at h
        by_cases hle : l = ""
        · rw [if_pos hle] at h
          simp at h
        · rw [if_neg hle] at h
          rw [Option.some.injEq] at h
          subst h
          refine ⟨rfl, hci.1, rfl, hci.2, fun hlm => ?_, fun hm => ?_⟩
          · exact absurd hlm (by simp)
          · rw [hm]
            rfl
  · intro body ai h
    unfold generateCode
    rw [h]

/-- C9 witness: a well-formed body is accepted with defaults applied, and a
body missing `code` is answered with the 400 bad-request result. -/
theorem claim9_validation_witness :
    (⟨some "x", some "fix", none, none⟩ : ReqBody).code =
      some (⟨"x", "fix", "JavaScript", "gpt-4o-mini"⟩ : GenerateCodeInput).code ∧
    generateCode ⟨none, some "fix", none, none⟩ (Except.ok ("y", [])) =
      HandlerResult.badRequest "Invalid input" :=
  ⟨(claim9_validation.1 ⟨some "x", some "fix", none, none⟩
      ⟨"x", "fix", "JavaScript", "gpt-4o-mini"⟩ (by decide)).1,
   claim9_validation.2 ⟨none, some "fix", none, none⟩ (Except.ok ("y", [])) (by decide)⟩

/-- C10: Counter/content decoupling in makePatch: the counters advance by the
full newline count of the value of each run regardless of how many content lines
are emitted; the final counter state depends only on the flags and
newline count of each run, not on the line contents; and a declared header count can
exceed the number of content lines printed beneath it (a two-blank-line
Delete run declares count 2 and prints no content line). -/
theorem claim10_decoupling :
    (∀ changes : List Change,
      (makePatchAux changes).2.1 = 1 + oldAdv changes ∧
      (makePatchAux changes).2.2 = 1 + newAdv changes) ∧
    (∀ cs cs' : List Change,
      cs.map (fun c => (c.added, c.removed, nlCount c.value)) =
        cs'.map (fun c => (c.added, c.removed, nlCount c.value)) →
      (makePatchAux cs).2 = (makePatchAux cs').2) ∧
    makePatch [⟨"\n\n", false, true, 2⟩] = "@@ -1,2 @@\n" := by
  refine ⟨makePatchAux_counters, ?_, by decide⟩
  intro cs cs' h
  have h1 := makePatchAux_counters cs
  have h2 := makePatchAux_counters cs'
  have ho : oldAdv cs = oldAdv cs' := by rw [oldAdv_key, oldAdv_key, h]
  have hn : newAdv cs = newAdv cs' := by rw [newAdv_key, newAdv_key, h]
  have hfst : (makePatchAux cs).2.1 = (makePatchAux cs').2.1 := by
    rw [h1.1, h2.1, ho]
  have hsnd : (makePatchAux cs).2.2 = (makePatchAux cs').2.2 := by
    rw [h1.2, h2.2, hn]
  exact Prod.ext hfst hsnd

/-- C10 witness: two Delete runs with different payloads but equal flags and
newline counts leave the counters in the same state. -/
theorem claim10_decoupling_witness :
    (makePatchAux [⟨"ab\n", false, true, 1⟩]).2 =
      (makePatchAux [⟨"cd\n", false, true, 1⟩]).2 :=
  claim10_decoupling.2.1 [⟨"ab\n", false, true, 1⟩] [⟨"cd\n", false, true, 1⟩]
    (by decide)

end RishiCursor
